import Mathlib

/-!
Shallow embedding of the torchODE CUDA integration engine
(src/src/solver.cu and the C++ binding layer) over exact rationals.
Device floats are modelled as `ℚ`; each CUDA kernel is modelled as a pure
function from the initial state vector (a function `Nat → ℚ` together with an
explicit size) to the final state vector, with thread coverage made explicit
through the grid size computed exactly as in `solve_cuda`.
-/

namespace TorchODE

/-- `euler_method` from solver.cu: `return (F_in * g_in) * dt;`.
The `x0_in` argument is received but never read. -/
def euler_method (F_in x0_in g_in dt : ℚ) : ℚ := (F_in * g_in) * dt

/-- `rk4_method` from solver.cu, stage by stage. -/
def rk4_method (F_in x0_in g_in dt : ℚ) : ℚ :=
  let f1 := (F_in * g_in) * dt
  let c2 := dt * f1 / 2
  let f2 := (F_in * (g_in + c2)) * (dt / 2)
  let c3 := dt * f2 / 2
  let f3 := (F_in * (g_in + c3)) * (dt / 2)
  let c4 := dt * f3
  let f4 := (F_in * (g_in + c4)) * dt
  (f1 + 2 * f2 + 2 * f3 + f4) / 6

/-- The per-element step loop shared by `general_solver` and
`compact_diagonal_solver`: `for i in 0..steps: x0_in = x0_in + method(F_in, x0_in, g_in, dt)`. -/
def step_loop (method : ℚ → ℚ → ℚ → ℚ → ℚ) (F_in g_in dt : ℚ) (steps : Nat) (x0_in : ℚ) : ℚ :=
  (fun x => x + method F_in x g_in dt)^[steps] x0_in

/-- The loop body shared verbatim by the two skew-symmetric kernels:
`x0_in_1 = x0_in_1 + method(UL_v, x0_in_1, g_in_1, dt) + method(UR_v, x0_in_2, g_in_2, dt);`
`x0_in_2 = x0_in_1 + method(LL_v, x0_in_1, g_in_1, dt) + method(LR_v, x0_in_2, g_in_2, dt);`
where the second assignment reads the already-updated `x0_in_1` and the
not-yet-updated `x0_in_2`. -/
def skew_pair_step (method : ℚ → ℚ → ℚ → ℚ → ℚ) (UL_v UR_v LL_v LR_v g_in_1 g_in_2 dt : ℚ)
    (p : ℚ × ℚ) : ℚ × ℚ :=
  let x1 := p.1 + method UL_v p.1 g_in_1 dt + method UR_v p.2 g_in_2 dt
  let x2 := x1 + method LL_v x1 g_in_1 dt + method LR_v p.2 g_in_2 dt
  (x1, x2)

/-- The `steps`-fold iteration of `skew_pair_step`. -/
def skew_pair_loop (method : ℚ → ℚ → ℚ → ℚ → ℚ) (UL_v UR_v LL_v LR_v g_in_1 g_in_2 dt : ℚ)
    (steps : Nat) (p : ℚ × ℚ) : ℚ × ℚ :=
  (skew_pair_step method UL_v UR_v LL_v LR_v g_in_1 g_in_2 dt)^[steps] p

/-- `general_solver` from solver.cu: thread `tid` (for `tid` below the grid
size) guards on `tid < x0_size`, reads `F_a[tid][tid]`, and runs the step
loop on its own element. -/
def general_solver (method : ℚ → ℚ → ℚ → ℚ → ℚ) (F_a : Nat → Nat → ℚ) (x0_a g_a : Nat → ℚ)
    (dt : ℚ) (steps x0_size nThreads : Nat) : Nat → ℚ :=
  fun tid =>
    if tid < nThreads ∧ tid < x0_size then
      step_loop method (F_a tid tid) (g_a tid) dt steps (x0_a tid)
    else x0_a tid

/-- `compact_diagonal_solver` from solver.cu: as `general_solver` but every
thread reads the single shared coefficient `F_a[0][0]`. -/
def compact_diagonal_solver (method : ℚ → ℚ → ℚ → ℚ → ℚ) (F_a : Nat → Nat → ℚ)
    (x0_a g_a : Nat → ℚ) (dt : ℚ) (steps x0_size nThreads : Nat) : Nat → ℚ :=
  fun tid =>
    if tid < nThreads ∧ tid < x0_size then
      step_loop method (F_a 0 0) (g_a tid) dt steps (x0_a tid)
    else x0_a tid

/-- `general_skew_symmetric_solver` from solver.cu: thread `tid < x0_size/2`
owns the pair `(tid, tid + x0_size/2)`, reads the four entries
`F_a[tid][tid]`, `F_a[tid][tid + x0_size/2]`, `F_a[tid + x0_size/2][tid]`,
`F_a[tid + x0_size/2][tid + x0_size/2]`, runs the pair loop and writes back
both elements.  Expressed per output index: the first pair element at index
`i < x0_size/2`, the second at index `i` with `x0_size/2 ≤ i < x0_size/2 + x0_size/2`
(owned by thread `i - x0_size/2`), and any other index untouched. -/
def general_skew_symmetric_solver (method : ℚ → ℚ → ℚ → ℚ → ℚ) (F_a : Nat → Nat → ℚ)
    (x0_a g_a : Nat → ℚ) (dt : ℚ) (steps x0_size nThreads : Nat) : Nat → ℚ :=
  fun i =>
    if i < x0_size / 2 ∧ i < nThreads then
      (skew_pair_loop method (F_a i i) (F_a i (i + x0_size / 2))
        (F_a (i + x0_size / 2) i) (F_a (i + x0_size / 2) (i + x0_size / 2))
        (g_a i) (g_a (i + x0_size / 2)) dt steps
        (x0_a i, x0_a (i + x0_size / 2))).1
    else if x0_size / 2 ≤ i ∧ i < x0_size / 2 + x0_size / 2 ∧ i - x0_size / 2 < nThreads then
      (skew_pair_loop method (F_a (i - x0_size / 2) (i - x0_size / 2)) (F_a (i - x0_size / 2) i)
        (F_a i (i - x0_size / 2)) (F_a i i)
        (g_a (i - x0_size / 2)) (g_a i) dt steps
        (x0_a (i - x0_size / 2), x0_a i)).2
    else x0_a i

/-- `compact_skew_symmetric_solver` from solver.cu: as the general variant but
every pair reads the four shared entries `F_a[0][0]`, `F_a[0][1]`,
`F_a[1][0]`, `F_a[1][1]`. -/
def compact_skew_symmetric_solver (method : ℚ → ℚ → ℚ → ℚ → ℚ) (F_a : Nat → Nat → ℚ)
    (x0_a g_a : Nat → ℚ) (dt : ℚ) (steps x0_size nThreads : Nat) : Nat → ℚ :=
  fun i =>
    if i < x0_size / 2 ∧ i < nThreads then
      (skew_pair_loop method (F_a 0 0) (F_a 0 1) (F_a 1 0) (F_a 1 1)
        (g_a i) (g_a (i + x0_size / 2)) dt steps
        (x0_a i, x0_a (i + x0_size / 2))).1
    else if x0_size / 2 ≤ i ∧ i < x0_size / 2 + x0_size / 2 ∧ i - x0_size / 2 < nThreads then
      (skew_pair_loop method (F_a 0 0) (F_a 0 1) (F_a 1 0) (F_a 1 1)
        (g_a (i - x0_size / 2)) (g_a i) dt steps
        (x0_a (i - x0_size / 2), x0_a i)).2
    else x0_a i

/-- The two stepping functions registered in the method map of `solve_cuda`. -/
inductive MethodKind
  | euler
  | rk4
  deriving DecidableEq

/-- The four kernels defined in solver.cu. -/
inductive KernelKind
  | generalDiagonal
  | compactDiagonal
  | compactSkew
  | generalSkew
  deriving DecidableEq

/-- The method map of `solve_cuda`: `h_methods["Euler"]`, `h_methods["RK4"]`.
`none` models the value-initialized (null) function pointer that
`std::map::operator[]` produces for any other key. -/
def h_methods (name : String) : Option MethodKind :=
  if name = "Euler" then some MethodKind.euler
  else if name = "RK4" then some MethodKind.rk4
  else none

/-- The stepping function denoted by each method kind. -/
def methodFn : MethodKind → (ℚ → ℚ → ℚ → ℚ → ℚ)
  | MethodKind.euler => euler_method
  | MethodKind.rk4 => rk4_method

/-- The `switch(F_size)` of `solve_cuda`: 1 and 2 select the compact kernels,
everything else falls through to `general_skew_symmetric_solver`. -/
def selectKernel (F_size : Nat) : KernelKind :=
  match F_size with
  | 1 => KernelKind.compactDiagonal
  | 2 => KernelKind.compactSkew
  | _ => KernelKind.generalSkew

/-- `const int threadsPerBlock = 512;` in `solve_cuda`. -/
def threadsPerBlock : Nat := 512

/-- `const int blocks = (x0_size + threadsPerBlock - 1) / threadsPerBlock;`. -/
def blocks (x0_size : Nat) : Nat := (x0_size + threadsPerBlock - 1) / threadsPerBlock

/-- The number of threads in the launched grid. -/
def numThreads (x0_size : Nat) : Nat := blocks x0_size * threadsPerBlock

/-- Dispatch of `solve_cuda` to one of the four kernels. -/
def runKernel (k : KernelKind) (method : ℚ → ℚ → ℚ → ℚ → ℚ) (F_a : Nat → Nat → ℚ)
    (x0_a g_a : Nat → ℚ) (dt : ℚ) (steps x0_size nThreads : Nat) : Nat → ℚ :=
  match k with
  | KernelKind.generalDiagonal => general_solver method F_a x0_a g_a dt steps x0_size nThreads
  | KernelKind.compactDiagonal => compact_diagonal_solver method F_a x0_a g_a dt steps x0_size nThreads
  | KernelKind.compactSkew => compact_skew_symmetric_solver method F_a x0_a g_a dt steps x0_size nThreads
  | KernelKind.generalSkew => general_skew_symmetric_solver method F_a x0_a g_a dt steps x0_size nThreads

/-- `solve_cuda` from solver.cu as a state transformer.  A recognized name
resolves to a stepping function and the selected kernel is run over the full
grid; an unrecognized name makes the source launch the kernel with a null
method pointer, which is undefined behavior, modelled as `none`. -/
def solve_cuda (F_a : Nat → Nat → ℚ) (x0_a g_a : Nat → ℚ) (dt : ℚ) (steps : Nat)
    (name : String) (F_size x0_size : Nat) : Option (Nat → ℚ) :=
  match h_methods name with
  | none => none
  | some mk =>
      some (runKernel (selectKernel F_size) (methodFn mk) F_a x0_a g_a dt steps x0_size
        (numThreads x0_size))

/-- What `solve_cuda` actually launches: the resolved method (or the null
pointer, `none`), the kernel picked by the shape switch, and the grid size.
The source has no early-return path, so a launch record exists for every
input; in particular `g_size` is never consulted. -/
structure LaunchRecord where
  method : Option MethodKind
  kernel : KernelKind
  gridThreads : Nat
  deriving DecidableEq

/-- The launch performed by `solve_cuda`, as a function of the method name
and the tensor sizes it reads (`torch::size(F, 0)` and `torch::size(x0, 0)`;
the size of `g` is never read). -/
def solve_cuda_launch (name : String) (F_size x0_size g_size : Nat) : LaunchRecord :=
  ⟨h_methods name, selectKernel F_size, numThreads x0_size⟩

/-- The tensor properties inspected by the C++ binding layer. -/
structure TensorMeta where
  is_cuda : Bool
  is_contiguous : Bool
  size0 : Nat
  deriving DecidableEq

/-- `CHECK_INPUT` from the binding layer: device residency and contiguity
only; sizes are not inspected. -/
def CHECK_INPUT (t : TensorMeta) : Bool := t.is_cuda && t.is_contiguous

/-- `solve_cpp` from the binding layer: runs `CHECK_INPUT` on `F`, `x0`, `g`
and otherwise forwards every argument to `solve_cuda` unchanged. -/
def solve_cpp_launch (F x0 g : TensorMeta) (name : String) : Option LaunchRecord :=
  if CHECK_INPUT F && CHECK_INPUT x0 && CHECK_INPUT g then
    some (solve_cuda_launch name F.size0 x0.size0 g.size0)
  else none

/-- Indices written by the per-element kernels (`general_solver`,
`compact_diagonal_solver`): thread `i` writes `x0_a[i]` iff it exists in the
grid and passes the guard `tid < x0_size`. -/
def diagonal_writes (x0_size nThreads i : Nat) : Prop := i < nThreads ∧ i < x0_size

/-- Indices written by the paired kernels: thread `tid < x0_size/2` writes
`x0_a[tid]` and `x0_a[tid + x0_size/2]`. -/
def skew_writes (x0_size nThreads i : Nat) : Prop :=
  (i < x0_size / 2 ∧ i < nThreads) ∨
  (x0_size / 2 ≤ i ∧ i < x0_size / 2 + x0_size / 2 ∧ i - x0_size / 2 < nThreads)

instance (x0_size nThreads i : Nat) : Decidable (diagonal_writes x0_size nThreads i) := by
  unfold diagonal_writes
  exact inferInstance

instance (x0_size nThreads i : Nat) : Decidable (skew_writes x0_size nThreads i) := by
  unfold skew_writes
  exact inferInstance

/-- Every state index is below the launched grid size. -/
theorem le_numThreads (W : Nat) : W ≤ numThreads W := by
  unfold numThreads blocks threadsPerBlock
  omega

/-- The RK4 stage formulas exactly as the spec documents them, in terms of
coefficient, scale and dt. -/
def rk4_documented_increment (coefficient scale dt : ℚ) : ℚ :=
  let f1 := coefficient * scale * dt
  let c2 := dt * f1 / 2
  let f2 := coefficient * (scale + c2) * (dt / 2)
  let c3 := dt * f2 / 2
  let f3 := coefficient * (scale + c3) * (dt / 2)
  let c4 := dt * f3
  let f4 := coefficient * (scale + c4) * dt
  (f1 + 2 * f2 + 2 * f3 + f4) / 6

/-- C5: for every coefficient, scale input and dt (and any current value, which
is ignored), `rk4_method` returns exactly the documented four-stage weighted
sum; spot-checked at coefficient 1, scale 1, dt 1, where the stages are
f1 = 1, f2 = 3/4, f3 = 11/16, f4 = 27/16 and the increment is 89/96. -/
theorem rk4_matches_documented_stages :
    (∀ c x g dt : ℚ, rk4_method c x g dt = rk4_documented_increment c g dt) ∧
    rk4_method 1 0 1 1 = 89 / 96 := by
  constructor
  · intro c x g dt
    rfl
  · norm_num [rk4_method]

/-- C6: for every coefficient, current value, scale input and dt, the Euler
stepping function returns `coefficient * scale_input * dt`, independently of
the current value argument. -/
theorem euler_increment_form :
    (∀ c x g dt : ℚ, euler_method c x g dt = c * g * dt) ∧
    (∀ c x y g dt : ℚ, euler_method c x g dt = euler_method c y g dt) := by
  constructor
  · intro c x g dt
    rfl
  · intro c x y g dt
    rfl

/-- C7: the shape switch selects solely on the leading dimension of `F`:
1 launches the compact diagonal kernel, 2 the compact skew-symmetric kernel,
anything else the general skew-symmetric kernel, and no leading dimension ever
selects the general per-element diagonal kernel `general_solver`. -/
theorem dispatch_by_leading_dimension :
    selectKernel 1 = KernelKind.compactDiagonal ∧
    selectKernel 2 = KernelKind.compactSkew ∧
    (∀ n : Nat, n ≠ 1 → n ≠ 2 → selectKernel n = KernelKind.generalSkew) ∧
    (∀ n : Nat, selectKernel n ≠ KernelKind.generalDiagonal) := by
  refine ⟨rfl, rfl, ?_, ?_⟩
  · intro n h1 h2
    rcases n with _ | _ | _ | m
    · rfl
    · exact absurd rfl h1
    · exact absurd rfl h2
    · rfl
  · intro n
    rcases n with _ | _ | _ | m
    · simp [selectKernel]
    · simp [selectKernel]
    · simp [selectKernel]
    · simp [selectKernel]

/-- Witness for C7 at the concrete leading dimension 5. -/
theorem dispatch_by_leading_dimension_witness :
    ((5 : Nat) ≠ 1 ∧ (5 : Nat) ≠ 2) ∧
    selectKernel 5 = KernelKind.generalSkew ∧
    selectKernel 5 ≠ KernelKind.generalDiagonal :=
  ⟨⟨by decide, by decide⟩,
    dispatch_by_leading_dimension.2.2.1 5 (by decide) (by decide),
    dispatch_by_leading_dimension.2.2.2 5⟩

/-- C1 (code bug): with the unknown method name "Heun" the map lookup yields
the null method pointer (`none`), yet `solve_cuda` still launches the kernel
selected by the shape switch — there is no unrecognized-method error and no
pre-launch failure; the run itself is undefined behavior (`none`). -/
theorem unknown_method_launches_kernel :
    h_methods "Heun" = none ∧
    solve_cuda_launch "Heun" 1 4 4 = ⟨none, KernelKind.compactDiagonal, numThreads 4⟩ ∧
    solve_cuda (fun _ _ => 0) (fun _ => 1) (fun _ => 1) 1 1 "Heun" 1 4 = none := by
  refine ⟨rfl, rfl, rfl⟩

/-- C8 (code bug): a call whose state vector has length 4 and whose scale
vector has length 2 passes every check the binding layer performs
(`CHECK_INPUT` inspects device residency and contiguity only) and
`solve_cuda` launches the general skew-symmetric kernel anyway — no length
comparison between `x0` and `g` exists anywhere on the path. -/
theorem length_mismatch_not_rejected :
    solve_cpp_launch ⟨true, true, 4⟩ ⟨true, true, 4⟩ ⟨true, true, 2⟩ "Euler"
      = some ⟨some MethodKind.euler, KernelKind.generalSkew, numThreads 4⟩ ∧
    solve_cpp_launch ⟨true, true, 4⟩ ⟨true, true, 4⟩ ⟨true, true, 2⟩ "Euler"
      = solve_cpp_launch ⟨true, true, 4⟩ ⟨true, true, 4⟩ ⟨true, true, 4⟩ "Euler" := by
  refine ⟨rfl, rfl⟩

theorem general_solver_steps_zero (method : ℚ → ℚ → ℚ → ℚ → ℚ) (F_a : Nat → Nat → ℚ)
    (x0_a g_a : Nat → ℚ) (dt : ℚ) (x0_size nThreads i : Nat) :
    general_solver method F_a x0_a g_a dt 0 x0_size nThreads i = x0_a i := by
  unfold general_solver step_loop
  split <;> rfl

theorem compact_diagonal_solver_steps_zero (method : ℚ → ℚ → ℚ → ℚ → ℚ) (F_a : Nat → Nat → ℚ)
    (x0_a g_a : Nat → ℚ) (dt : ℚ) (x0_size nThreads i : Nat) :
    compact_diagonal_solver method F_a x0_a g_a dt 0 x0_size nThreads i = x0_a i := by
  unfold compact_diagonal_solver step_loop
  split <;> rfl

theorem general_skew_steps_zero (method : ℚ → ℚ → ℚ → ℚ → ℚ) (F_a : Nat → Nat → ℚ)
    (x0_a g_a : Nat → ℚ) (dt : ℚ) (x0_size nThreads i : Nat) :
    general_skew_symmetric_solver method F_a x0_a g_a dt 0 x0_size nThreads i = x0_a i := by
  unfold general_skew_symmetric_solver skew_pair_loop
  split
  · rfl
  split <;> rfl

theorem compact_skew_steps_zero (method : ℚ → ℚ → ℚ → ℚ → ℚ) (F_a : Nat → Nat → ℚ)
    (x0_a g_a : Nat → ℚ) (dt : ℚ) (x0_size nThreads i : Nat) :
    compact_skew_symmetric_solver method F_a x0_a g_a dt 0 x0_size nThreads i = x0_a i := by
  unfold compact_skew_symmetric_solver skew_pair_loop
  split
  · rfl
  split <;> rfl

theorem runKernel_steps_zero (k : KernelKind) (method : ℚ → ℚ → ℚ → ℚ → ℚ)
    (F_a : Nat → Nat → ℚ) (x0_a g_a : Nat → ℚ) (dt : ℚ) (x0_size nThreads i : Nat) :
    runKernel k method F_a x0_a g_a dt 0 x0_size nThreads i = x0_a i := by
  cases k
  · exact general_solver_steps_zero method F_a x0_a g_a dt x0_size nThreads i
  · exact compact_diagonal_solver_steps_zero method F_a x0_a g_a dt x0_size nThreads i
  · exact compact_skew_steps_zero method F_a x0_a g_a dt x0_size nThreads i
  · exact general_skew_steps_zero method F_a x0_a g_a dt x0_size nThreads i

/-- C9: for every matrix, state vector, scale vector, dt, every leading
dimension (hence every dispatched kernel) and either recognized method name,
calling solve with `steps = 0` leaves every element of the state vector
unchanged. -/
theorem steps_zero_identity (F_a : Nat → Nat → ℚ) (x0_a g_a : Nat → ℚ) (dt : ℚ)
    (name : String) (F_size x0_size : Nat)
    (hname : name = "Euler" ∨ name = "RK4") :
    ∃ out, solve_cuda F_a x0_a g_a dt 0 name F_size x0_size = some out ∧
      ∀ i, out i = x0_a i := by
  rcases hname with h | h <;> subst h
  · exact ⟨_, rfl, fun i => runKernel_steps_zero _ _ F_a x0_a g_a dt x0_size _ i⟩
  · exact ⟨_, rfl, fun i => runKernel_steps_zero _ _ F_a x0_a g_a dt x0_size _ i⟩

/-- Witness for C9 at a concrete instance with name "Euler". -/
theorem steps_zero_identity_witness :
    ("Euler" = "Euler" ∨ "Euler" = "RK4") ∧
    ∃ out, solve_cuda (fun _ _ => 1) (fun i => (i : ℚ)) (fun _ => 1) 1 0 "Euler" 3 5 = some out ∧
      ∀ i, out i = ((i : ℚ)) :=
  ⟨Or.inl rfl,
    steps_zero_identity (fun _ _ => 1) (fun i => (i : ℚ)) (fun _ => 1) 1 "Euler" 3 5 (Or.inl rfl)⟩

/-- The simultaneous paired update that the spec rules out, modelled from the
spec's words: both elements of the pair updated from both old values. -/
def skew_pair_step_simultaneous (method : ℚ → ℚ → ℚ → ℚ → ℚ)
    (UL_v UR_v LL_v LR_v g_in_1 g_in_2 dt : ℚ) (p : ℚ × ℚ) : ℚ × ℚ :=
  (p.1 + method UL_v p.1 g_in_1 dt + method UR_v p.2 g_in_2 dt,
   p.2 + method LL_v p.1 g_in_1 dt + method LR_v p.2 g_in_2 dt)

/-- C2: in both paired kernels, within a single timestep the pair is updated
sequentially.  With `W = 2` and one step, the value written at index 1 is
computed from the value written at index 0 — the first element's
already-updated value for this same step — and this differs, on a concrete
input, from a simultaneous update computed from both old values. -/
theorem paired_sequential_update :
    (∀ (m : ℚ → ℚ → ℚ → ℚ → ℚ) (F_a : Nat → Nat → ℚ) (x0_a g_a : Nat → ℚ) (dt : ℚ),
      compact_skew_symmetric_solver m F_a x0_a g_a dt 1 2 (numThreads 2) 1
        = compact_skew_symmetric_solver m F_a x0_a g_a dt 1 2 (numThreads 2) 0
          + m (F_a 1 0) (compact_skew_symmetric_solver m F_a x0_a g_a dt 1 2 (numThreads 2) 0)
              (g_a 0) dt
          + m (F_a 1 1) (x0_a 1) (g_a 1) dt) ∧
    (∀ (m : ℚ → ℚ → ℚ → ℚ → ℚ) (F_a : Nat → Nat → ℚ) (x0_a g_a : Nat → ℚ) (dt : ℚ),
      general_skew_symmetric_solver m F_a x0_a g_a dt 1 2 (numThreads 2) 1
        = general_skew_symmetric_solver m F_a x0_a g_a dt 1 2 (numThreads 2) 0
          + m (F_a 1 0) (general_skew_symmetric_solver m F_a x0_a g_a dt 1 2 (numThreads 2) 0)
              (g_a 0) dt
          + m (F_a 1 1) (x0_a 1) (g_a 1) dt) ∧
    skew_pair_step euler_method 0 0 1 0 1 1 1 (5, 7)
      ≠ skew_pair_step_simultaneous euler_method 0 0 1 0 1 1 1 (5, 7) := by
  refine ⟨?_, ?_, ?_⟩
  · intro m F_a x0_a g_a dt
    norm_num [compact_skew_symmetric_solver, skew_pair_loop, skew_pair_step,
      numThreads, blocks, threadsPerBlock]
  · intro m F_a x0_a g_a dt
    norm_num [general_skew_symmetric_solver, skew_pair_loop, skew_pair_step,
      numThreads, blocks, threadsPerBlock]
  · norm_num [skew_pair_step, skew_pair_step_simultaneous, euler_method]

/-- The all-zero coefficient matrix. -/
def zeroF : Nat → Nat → ℚ := fun _ _ => 0

/-- The all-ones coefficient matrix. -/
def onesF : Nat → Nat → ℚ := fun _ _ => 1

/-- The all-ones vector. -/
def onesV : Nat → ℚ := fun _ => 1

/-- The all-zeros vector. -/
def zerosV : Nat → ℚ := fun _ => 0

/-- The vector 1, 2, 3, … . -/
def rampV : Nat → ℚ := fun i => (i : ℚ) + 1

theorem step_loop_zero_coeff (g dt : ℚ) (n : Nat) (x : ℚ) :
    step_loop euler_method 0 g dt n x = x := by
  unfold step_loop
  have hf : (fun x : ℚ => x + euler_method 0 x g dt) = id := by
    funext y
    simp [euler_method]
  rw [hf, Function.iterate_id]
  rfl

theorem skew_pair_step_zero_coeff (g1 g2 dt : ℚ) (p : ℚ × ℚ) :
    skew_pair_step euler_method 0 0 0 0 g1 g2 dt p = (p.1, p.1) := by
  simp [skew_pair_step, euler_method]

theorem skew_pair_loop_diag_fixed (g1 g2 dt : ℚ) (k : Nat) (a : ℚ) :
    skew_pair_loop euler_method 0 0 0 0 g1 g2 dt k (a, a) = (a, a) := by
  induction k with
  | zero => rfl
  | succ n ih =>
      unfold skew_pair_loop at ih ⊢
      rw [Function.iterate_succ_apply, skew_pair_step_zero_coeff]
      exact ih

theorem skew_pair_loop_zero_coeff (g1 g2 dt : ℚ) (n : Nat) (hn : 1 ≤ n) (p : ℚ × ℚ) :
    skew_pair_loop euler_method 0 0 0 0 g1 g2 dt n p = (p.1, p.1) := by
  obtain ⟨k, rfl⟩ : ∃ k, n = k + 1 := ⟨n - 1, by omega⟩
  unfold skew_pair_loop
  rw [Function.iterate_succ_apply, skew_pair_step_zero_coeff]
  exact skew_pair_loop_diag_fixed g1 g2 dt k p.1

theorem skew_pair_loop_zero_coeff_fst (g1 g2 dt : ℚ) (n : Nat) (p : ℚ × ℚ) :
    (skew_pair_loop euler_method 0 0 0 0 g1 g2 dt n p).1 = p.1 := by
  rcases Nat.eq_zero_or_pos n with h | h
  · subst h
    rfl
  · rw [skew_pair_loop_zero_coeff g1 g2 dt n h p]

theorem compact_skew_zero_matrix (F_a : Nat → Nat → ℚ) (x0_a g_a : Nat → ℚ) (dt : ℚ)
    (steps W : Nat) (hF : ∀ i j, F_a i j = 0) :
    (∀ i, i < W / 2 →
      compact_skew_symmetric_solver euler_method F_a x0_a g_a dt steps W (numThreads W) i
        = x0_a i) ∧
    (∀ i, W / 2 ≤ i → i < W / 2 + W / 2 → 1 ≤ steps →
      compact_skew_symmetric_solver euler_method F_a x0_a g_a dt steps W (numThreads W) i
        = x0_a (i - W / 2)) ∧
    (∀ i, W / 2 + W / 2 ≤ i →
      compact_skew_symmetric_solver euler_method F_a x0_a g_a dt steps W (numThreads W) i
        = x0_a i) := by
  have hnt := le_numThreads W
  refine ⟨?_, ?_, ?_⟩
  · intro i hi
    unfold compact_skew_symmetric_solver
    rw [if_pos ⟨hi, by omega⟩, hF 0 0, hF 0 1, hF 1 0, hF 1 1]
    exact skew_pair_loop_zero_coeff_fst (g_a i) (g_a (i + W / 2)) dt steps _
  · intro i h1 h2 hs
    unfold compact_skew_symmetric_solver
    rw [if_neg (by omega), if_pos ⟨h1, h2, by omega⟩, hF 0 0, hF 0 1, hF 1 0, hF 1 1,
      skew_pair_loop_zero_coeff (g_a (i - W / 2)) (g_a i) dt steps hs]
  · intro i hi
    unfold compact_skew_symmetric_solver
    rw [if_neg (by omega), if_neg (by omega)]

theorem general_skew_zero_matrix (F_a : Nat → Nat → ℚ) (x0_a g_a : Nat → ℚ) (dt : ℚ)
    (steps W : Nat) (hF : ∀ i j, F_a i j = 0) :
    (∀ i, i < W / 2 →
      general_skew_symmetric_solver euler_method F_a x0_a g_a dt steps W (numThreads W) i
        = x0_a i) ∧
    (∀ i, W / 2 ≤ i → i < W / 2 + W / 2 → 1 ≤ steps →
      general_skew_symmetric_solver euler_method F_a x0_a g_a dt steps W (numThreads W) i
        = x0_a (i - W / 2)) ∧
    (∀ i, W / 2 + W / 2 ≤ i →
      general_skew_symmetric_solver euler_method F_a x0_a g_a dt steps W (numThreads W) i
        = x0_a i) := by
  have hnt := le_numThreads W
  refine ⟨?_, ?_, ?_⟩
  · intro i hi
    unfold general_skew_symmetric_solver
    rw [if_pos ⟨hi, by omega⟩, hF i i, hF i (i + W / 2), hF (i + W / 2) i,
      hF (i + W / 2) (i + W / 2)]
    exact skew_pair_loop_zero_coeff_fst (g_a i) (g_a (i + W / 2)) dt steps _
  · intro i h1 h2 hs
    unfold general_skew_symmetric_solver
    rw [if_neg (by omega), if_pos ⟨h1, h2, by omega⟩, hF (i - W / 2) (i - W / 2),
      hF (i - W / 2) i, hF i (i - W / 2), hF i i,
      skew_pair_loop_zero_coeff (g_a (i - W / 2)) (g_a i) dt steps hs]
  · intro i hi
    unfold general_skew_symmetric_solver
    rw [if_neg (by omega), if_neg (by omega)]

/-- C3 counterexample: with `W = 2`, the 2×2 zero matrix (leading dimension 2,
compact skew-symmetric kernel), `x0 = (1, 2)`, `g = (1, 1)`, `dt = 1`, one
Euler step rewrites element 1 to element 0's value 1, so the state vector is
not left unchanged. -/
theorem euler_zero_matrix_changes_state :
    (solve_cuda zeroF rampV onesV 1 1 "Euler" 2 2).map (fun out => out 1) = some 1 ∧
    rampV 1 = 2 := by
  constructor
  · have h : solve_cuda zeroF rampV onesV 1 1 "Euler" 2 2
        = some (compact_skew_symmetric_solver euler_method zeroF rampV onesV 1 1 2
            (numThreads 2)) := rfl
    rw [h]
    norm_num [compact_skew_symmetric_solver, skew_pair_loop, skew_pair_step,
      euler_method, numThreads, blocks, threadsPerBlock, zeroF, rampV, onesV]
  · norm_num [rampV]

/-- C3 amended: with an all-zero coefficient matrix, Euler leaves every
element unchanged when the leading dimension is 1 (compact diagonal kernel);
for any other leading dimension (both skew-symmetric kernels) the first pair
elements and all uncovered elements stay unchanged, but each second pair
element is overwritten with its partner's initial value as soon as
`steps ≥ 1` (and everything is unchanged when `steps = 0`). -/
theorem euler_zero_matrix_amended (F_a : Nat → Nat → ℚ) (x0_a g_a : Nat → ℚ)
    (dt : ℚ) (steps F_size W : Nat) (hF : ∀ i j, F_a i j = 0) :
    ∃ out, solve_cuda F_a x0_a g_a dt steps "Euler" F_size W = some out ∧
      ((F_size = 1 → ∀ i, out i = x0_a i) ∧
       (F_size ≠ 1 →
         (∀ i, i < W / 2 → out i = x0_a i) ∧
         (∀ i, W / 2 ≤ i → i < W / 2 + W / 2 → 1 ≤ steps → out i = x0_a (i - W / 2)) ∧
         (∀ i, W / 2 + W / 2 ≤ i → out i = x0_a i) ∧
         (steps = 0 → ∀ i, out i = x0_a i))) := by
  refine ⟨_, rfl, ?_, ?_⟩
  · intro h1
    subst h1
    intro i
    show compact_diagonal_solver euler_method F_a x0_a g_a dt steps W (numThreads W) i = x0_a i
    unfold compact_diagonal_solver
    split
    · rw [hF 0 0]
      exact step_loop_zero_coeff (g_a i) dt steps (x0_a i)
    · rfl
  · intro hne
    rcases F_size with _ | _ | _ | m
    · exact ⟨(general_skew_zero_matrix F_a x0_a g_a dt steps W hF).1,
        (general_skew_zero_matrix F_a x0_a g_a dt steps W hF).2.1,
        (general_skew_zero_matrix F_a x0_a g_a dt steps W hF).2.2,
        fun h0 => by
          subst h0
          intro i
          exact general_skew_steps_zero euler_method F_a x0_a g_a dt W (numThreads W) i⟩
    · exact absurd rfl hne
    · exact ⟨(compact_skew_zero_matrix F_a x0_a g_a dt steps W hF).1,
        (compact_skew_zero_matrix F_a x0_a g_a dt steps W hF).2.1,
        (compact_skew_zero_matrix F_a x0_a g_a dt steps W hF).2.2,
        fun h0 => by
          subst h0
          intro i
          exact compact_skew_steps_zero euler_method F_a x0_a g_a dt W (numThreads W) i⟩
    · exact ⟨(general_skew_zero_matrix F_a x0_a g_a dt steps W hF).1,
        (general_skew_zero_matrix F_a x0_a g_a dt steps W hF).2.1,
        (general_skew_zero_matrix F_a x0_a g_a dt steps W hF).2.2,
        fun h0 => by
          subst h0
          intro i
          exact general_skew_steps_zero euler_method F_a x0_a g_a dt W (numThreads W) i⟩

/-- Witness for C3 amended at the concrete instance of the counterexample. -/
theorem euler_zero_matrix_amended_witness :
    (∀ i j, zeroF i j = (0 : ℚ)) ∧
    (∃ out, solve_cuda zeroF rampV onesV 1 1 "Euler" 2 2 = some out ∧
      (((2 : Nat) = 1 → ∀ i, out i = rampV i) ∧
       ((2 : Nat) ≠ 1 →
         (∀ i, i < 2 / 2 → out i = rampV i) ∧
         (∀ i, 2 / 2 ≤ i → i < 2 / 2 + 2 / 2 → 1 ≤ 1 → out i = rampV (i - 2 / 2)) ∧
         (∀ i, 2 / 2 + 2 / 2 ≤ i → out i = rampV i) ∧
         ((1 : Nat) = 0 → ∀ i, out i = rampV i)))) :=
  ⟨fun i j => rfl, euler_zero_matrix_amended zeroF rampV onesV 1 1 2 2 (fun i j => rfl)⟩

/-- C4 counterexample: for `W = 3` the dispatched kernel is the general
skew-symmetric one, its write set misses index 2, and a concrete run
(`F` all ones, `x0` all zeros, `g` all ones, `dt = 1`, one Euler step) leaves
element 2 at its initial value 0 while the covered pair moves to 2 and 4. -/
theorem paired_coverage_counterexample :
    (¬ skew_writes 3 (numThreads 3) 2) ∧
    selectKernel 3 = KernelKind.generalSkew ∧
    (solve_cuda onesF zerosV onesV 1 1 "Euler" 3 3).map (fun out => (out 0, out 1, out 2))
      = some (2, 4, 0) := by
  refine ⟨by decide, rfl, ?_⟩
  have h : solve_cuda onesF zerosV onesV 1 1 "Euler" 3 3
      = some (general_skew_symmetric_solver euler_method onesF zerosV onesV 1 1 3
          (numThreads 3)) := rfl
  rw [h]
  norm_num [general_skew_symmetric_solver, skew_pair_loop, skew_pair_step,
    euler_method, numThreads, blocks, threadsPerBlock, onesF, zerosV, onesV]

/-- C4 amended: the per-element kernels cover every index below `W`; the
paired kernels cover exactly the indices below `W / 2 + W / 2`, which is all
of them when `W` is even, but skips the last element when `W` is odd. -/
theorem coverage_amended (W : Nat) :
    (∀ i, i < W → diagonal_writes W (numThreads W) i) ∧
    (∀ i, i < W / 2 + W / 2 → skew_writes W (numThreads W) i) ∧
    (W % 2 = 0 → ∀ i, i < W → skew_writes W (numThreads W) i) := by
  have hnt := le_numThreads W
  refine ⟨?_, ?_, ?_⟩
  · intro i hi
    exact ⟨lt_of_lt_of_le hi hnt, hi⟩
  · intro i hi
    unfold skew_writes
    omega
  · intro heven i hi
    unfold skew_writes
    omega

/-- Witness for C4 amended: with `W = 4` (even) index 3 is covered by the
paired kernels. -/
theorem coverage_amended_witness :
    ((4 : Nat) % 2 = 0 ∧ (3 : Nat) < 4) ∧ skew_writes 4 (numThreads 4) 3 :=
  ⟨⟨by decide, by decide⟩, (coverage_amended 4).2.2 (by decide) 3 (by decide)⟩

/-- A vector that is zero except at index 2. -/
def x0_dep : Nat → ℚ := fun i => if i = 2 then 5 else 0

/-- A vector that is zero except at index 1. -/
def x0_dep2 : Nat → ℚ := fun i => if i = 1 then 7 else 0

/-- C10 counterexample: with `W = 3` the two initial vectors differ only at
index 2, which lies in the claimed range `W/2 .. W-1`, yet the final vectors
differ there: the paired kernels never touch index 2 when `W` is odd, so its
initial value passes straight through to the output. -/
theorem second_half_dependence_odd_width :
    (∀ i, i ≠ 2 → zerosV i = x0_dep i) ∧
    (solve_cuda onesF zerosV onesV 1 1 "Euler" 3 3).map (fun out => out 2)
      ≠ (solve_cuda onesF x0_dep onesV 1 1 "Euler" 3 3).map (fun out => out 2) := by
  constructor
  · intro i hi
    simp [zerosV, x0_dep, hi]
  · have h1 : solve_cuda onesF zerosV onesV 1 1 "Euler" 3 3
        = some (general_skew_symmetric_solver euler_method onesF zerosV onesV 1 1 3
            (numThreads 3)) := rfl
    have h2 : solve_cuda onesF x0_dep onesV 1 1 "Euler" 3 3
        = some (general_skew_symmetric_solver euler_method onesF x0_dep onesV 1 1 3
            (numThreads 3)) := rfl
    rw [h1, h2]
    norm_num [general_skew_symmetric_solver, numThreads, blocks, threadsPerBlock,
      zerosV, x0_dep]

theorem methodFn_ignores_value (mk : MethodKind) (c x y g dt : ℚ) :
    methodFn mk c x g dt = methodFn mk c y g dt := by
  cases mk <;> rfl

theorem skew_pair_step_value_independent (mk : MethodKind)
    (UL_v UR_v LL_v LR_v g1 g2 dt a b b' : ℚ) :
    skew_pair_step (methodFn mk) UL_v UR_v LL_v LR_v g1 g2 dt (a, b)
      = skew_pair_step (methodFn mk) UL_v UR_v LL_v LR_v g1 g2 dt (a, b') := by
  simp only [skew_pair_step]
  rw [methodFn_ignores_value mk UR_v b b' g2 dt, methodFn_ignores_value mk LR_v b b' g2 dt]

theorem skew_pair_loop_value_independent (mk : MethodKind)
    (UL_v UR_v LL_v LR_v g1 g2 dt : ℚ) (steps : Nat) (hs : 1 ≤ steps) (a b b' : ℚ) :
    skew_pair_loop (methodFn mk) UL_v UR_v LL_v LR_v g1 g2 dt steps (a, b)
      = skew_pair_loop (methodFn mk) UL_v UR_v LL_v LR_v g1 g2 dt steps (a, b') := by
  obtain ⟨k, rfl⟩ : ∃ k, steps = k + 1 := ⟨steps - 1, by omega⟩
  unfold skew_pair_loop
  rw [Function.iterate_succ_apply, Function.iterate_succ_apply,
    skew_pair_step_value_independent mk UL_v UR_v LL_v LR_v g1 g2 dt a b b']

/-- C10 amended: for both skew-symmetric kernels, either stepping function and
`steps ≥ 1`, two runs whose initial states agree on the first half
`[0, W/2)` and on every index at or beyond `W/2 + W/2` (for even `W`, exactly
the claimed agreement on the first half only) produce identical final state
vectors: the actual second pair elements, at indices `W/2 .. W/2 + W/2 - 1`,
do not influence the result, but for odd `W` the uncovered last element is
copied through and must therefore agree. -/
theorem second_half_independence (mk : MethodKind) (F_a : Nat → Nat → ℚ)
    (x0_a x0_b g_a : Nat → ℚ) (dt : ℚ) (steps W : Nat)
    (hsteps : 1 ≤ steps)
    (hagree : ∀ i, i < W / 2 ∨ W / 2 + W / 2 ≤ i → x0_a i = x0_b i) :
    (∀ i, general_skew_symmetric_solver (methodFn mk) F_a x0_a g_a dt steps W (numThreads W) i
        = general_skew_symmetric_solver (methodFn mk) F_a x0_b g_a dt steps W (numThreads W) i) ∧
    (∀ i, compact_skew_symmetric_solver (methodFn mk) F_a x0_a g_a dt steps W (numThreads W) i
        = compact_skew_symmetric_solver (methodFn mk) F_a x0_b g_a dt steps W (numThreads W) i) := by
  have hnt := le_numThreads W
  constructor
  · intro i
    unfold general_skew_symmetric_solver
    split_ifs with h1 h2
    · rw [hagree i (Or.inl h1.1)]
      exact congrArg Prod.fst
        (skew_pair_loop_value_independent mk _ _ _ _ _ _ dt steps hsteps (x0_b i)
          (x0_a (i + W / 2)) (x0_b (i + W / 2)))
    · rw [hagree (i - W / 2) (Or.inl (by omega))]
      exact congrArg Prod.snd
        (skew_pair_loop_value_independent mk _ _ _ _ _ _ dt steps hsteps (x0_b (i - W / 2))
          (x0_a i) (x0_b i))
    · exact hagree i (Or.inr (by omega))
  · intro i
    unfold compact_skew_symmetric_solver
    split_ifs with h1 h2
    · rw [hagree i (Or.inl h1.1)]
      exact congrArg Prod.fst
        (skew_pair_loop_value_independent mk _ _ _ _ _ _ dt steps hsteps (x0_b i)
          (x0_a (i + W / 2)) (x0_b (i + W / 2)))
    · rw [hagree (i - W / 2) (Or.inl (by omega))]
      exact congrArg Prod.snd
        (skew_pair_loop_value_independent mk _ _ _ _ _ _ dt steps hsteps (x0_b (i - W / 2))
          (x0_a i) (x0_b i))
    · exact hagree i (Or.inr (by omega))

/-- Witness for C10 amended: with `W = 2`, two initial states differing only
at index 1 lead to the same final value at index 1. -/
theorem second_half_independence_witness :
    ((1 : Nat) ≤ 1 ∧ (∀ i, i < 2 / 2 ∨ 2 / 2 + 2 / 2 ≤ i → zerosV i = x0_dep2 i)) ∧
    general_skew_symmetric_solver (methodFn MethodKind.euler) onesF zerosV onesV 1 1 2
        (numThreads 2) 1
      = general_skew_symmetric_solver (methodFn MethodKind.euler) onesF x0_dep2 onesV 1 1 2
        (numThreads 2) 1 := by
  have hag : ∀ i, i < 2 / 2 ∨ 2 / 2 + 2 / 2 ≤ i → zerosV i = x0_dep2 i := by
    intro i hi
    have hne : i ≠ 1 := by omega
    simp [zerosV, x0_dep2, hne]
  exact ⟨⟨le_refl 1, hag⟩,
    (second_half_independence MethodKind.euler onesF zerosV x0_dep2 onesV 1 1 2
      (le_refl 1) hag).1 1⟩

end TorchODE
